import Mathlib

/-!
Verification of the QoLib terminal presentation toolkit (`qolib.py`).

The Python source is shallowly embedded: pure string-building methods become
Lean functions on `String`/`List Char`, Python `int` becomes `Int`/`Nat`,
float arithmetic that is exact on the inputs considered becomes `ℚ`, and
code that can raise (`ValueError`, `ZeroDivisionError`, `IndexError`)
returns `Option`.

Note on the source text: the glyph string literals in `qolib.py` (border
glyphs, box glyphs, icons, check marks) are stored double-encoded in the
file; e.g. the rounded top-left corner is the three-character sequence
`U+201A U+00EF U+2260`.  The embedding reproduces the exact character
sequences of the file, written with `\u` escapes, since Python `len` counts
those code points.
-/

namespace QoLib

/-- The escape character that starts every ANSI style token. -/
def escChar : Char := '\x1b'

/-- `ANSIColor.RESET`. -/
def RESET : String := "\x1b[0m"

/-- `ANSIColor.BOLD`. -/
def BOLD : String := "\x1b[1m"

/-- `ANSIColor.DIM`. -/
def DIM : String := "\x1b[2m"

/-- `ANSIColor.RED`. -/
def RED : String := "\x1b[31m"

/-- `ANSIColor.CYAN`. -/
def CYAN : String := "\x1b[36m"

/-- `ANSIColor.WHITE`. -/
def WHITE : String := "\x1b[37m"

/-- `ANSIColor.BRIGHT_BLACK` (`Color.GRAY`). -/
def GRAY : String := "\x1b[90m"

/-- `ANSIColor.BRIGHT_RED` (`Color.LIGHT_RED`). -/
def LIGHT_RED : String := "\x1b[91m"

/-- `ANSIColor.BRIGHT_GREEN` (`Color.LIGHT_GREEN`). -/
def LIGHT_GREEN : String := "\x1b[92m"

/-- `ANSIColor.BRIGHT_YELLOW` (`Color.LIGHT_YELLOW`). -/
def LIGHT_YELLOW : String := "\x1b[93m"

/-- `ANSIColor.BRIGHT_BLUE` (`Color.LIGHT_BLUE`). -/
def LIGHT_BLUE : String := "\x1b[94m"

/-- `ANSIColor.BRIGHT_MAGENTA` (`Color.LIGHT_MAGENTA`). -/
def LIGHT_MAGENTA : String := "\x1b[95m"

/-- `ANSIColor.BRIGHT_CYAN` (`Color.LIGHT_CYAN`). -/
def LIGHT_CYAN : String := "\x1b[96m"

/-- `ANSIColor.fg_rgb`: the f-string `'\033[38;2;{r};{g};{b}m'`. -/
def fg_rgb (r g b : Int) : String :=
  "\x1b[38;2;" ++ toString r ++ ";" ++ toString g ++ ";" ++ toString b ++ "m"

/-- Python string repetition `s * n` for a nonnegative count. -/
def strRepeat (s : String) (n : Nat) : String :=
  String.join (List.replicate n s)

/-- Python string repetition `s * n` for a possibly negative `int` count
(a negative count yields the empty string). -/
def strRepeatI (s : String) (n : Int) : String :=
  strRepeat s n.toNat

/-- A character matched by the `[0-9;]` class of the stripping regex. -/
def isParamChar (c : Char) : Bool :=
  c.isDigit || c = ';'

/-- After `ESC [` has been seen, consume `[0-9;]*` and then require `m`;
returns the remainder of the input after the matched `m`, or `none` when
the regex cannot match here. -/
def matchSeq : List Char → Option (List Char)
  | [] => none
  | c :: cs => if c = 'm' then some cs else if isParamChar c then matchSeq cs else none

/-- Fuel-indexed left-to-right scanner implementing
`re.sub(r'\033\[[0-9;]*m', '', text)` from `Color.strip_colors`:
at each position a complete `ESC [ params m` token is removed, otherwise one
character is emitted and the scan advances by one.  `length s` fuel always
suffices (each step consumes at least one character). -/
def stripGo : Nat → List Char → List Char
  | 0, s => s
  | _ + 1, [] => []
  | f + 1, a :: as =>
    if a = '\x1b' ∧ as.head? = some '[' then
      match matchSeq as.tail with
      | some tail => stripGo f tail
      | none => a :: stripGo f as
    else a :: stripGo f as

/-- The scan of `Color.strip_colors` on a character list. -/
def stripList (s : List Char) : List Char :=
  stripGo s.length s

/-- `Color.strip_colors`: remove every ANSI escape token from the text. -/
def strip_colors (s : String) : String :=
  ⟨stripList s.data⟩

/-- The character list of the reset token `ESC[0m`. -/
def resetL : List Char := ['\x1b', '[', '0', 'm']

/-- Does `rest` consist of `[0-9;]*` followed by a final `m`?
`ESC [ rest` is then exactly one complete style token. -/
def isTokenTail : List Char → Bool
  | [] => false
  | [c] => c = 'm'
  | c :: cs => isParamChar c && isTokenTail cs

/-- `tok` is a single complete ANSI style token `ESC [ params m`. -/
def isStyleToken (tok : String) : Bool :=
  match tok.data with
  | a :: b :: rest => a = '\x1b' && b = '[' && isTokenTail rest
  | _ => false

/-- Hexadecimal digit as accepted by Python `int(_, 16)`. -/
def isHexDig (c : Char) : Bool :=
  c.isDigit || ('a' ≤ c && c ≤ 'f') || ('A' ≤ c && c ≤ 'F')

/-- Numeric value of a hex digit. -/
def hexVal (c : Char) : Nat :=
  if c.isDigit then c.toNat - '0'.toNat
  else if 'a' ≤ c then c.toNat - 'a'.toNat + 10
  else c.toNat - 'A'.toNat + 10

/-- ASCII whitespace stripped by Python `int(str, 16)`. -/
def isPySpace (c : Char) : Bool :=
  c = ' ' || c = '\t' || c = '\n' || c = '\r' || c = '\x0b' || c = '\x0c'

/-- Hex digits possibly separated by single underscores: `d ( _? d )*`. -/
def hexRun : List Char → Bool
  | [] => false
  | [c] => isHexDig c
  | c :: d :: rest => isHexDig c && (if d = '_' then hexRun rest else hexRun (d :: rest))

/-- Accumulated value of a hex run (underscores skipped). -/
def hexValue (cs : List Char) : Nat :=
  cs.foldl (fun v c => if c = '_' then v else v * 16 + hexVal c) 0

/-- Drop a single underscore allowed right after the `0x` prefix. -/
def dropOneUnderscore (t : List Char) : List Char :=
  match t with
  | c :: r => if c = '_' then r else t
  | [] => t

/-- Remove an optional `0x`/`0X` prefix. -/
def stripHexPrefix (t : List Char) : List Char :=
  match t with
  | a :: b :: r => if a = '0' ∧ (b = 'x' ∨ b = 'X') then dropOneUnderscore r else t
  | _ => t

/-- Modelled from Python's built-in `int(s, 16)` as called by
`Color.hex_to_rgb`: surrounding ASCII whitespace, an optional sign, an
optional `0x` prefix, and single underscores between digits are accepted;
anything else raises `ValueError`, modelled as `none`. -/
def pyIntHex (cs : List Char) : Option Int :=
  let t := ((cs.dropWhile isPySpace).reverse.dropWhile isPySpace).reverse
  let sb : Int × List Char :=
    match t with
    | c :: r => if c = '+' then (1, r) else if c = '-' then (-1, r) else (1, t)
    | [] => (1, t)
  let body := stripHexPrefix sb.2
  if hexRun body then some (sb.1 * hexValue body) else none

/-- Python slice `l[a:b]` for `0 ≤ a ≤ b`. -/
def pySlice (l : List Char) (a b : Nat) : List Char :=
  (l.drop a).take (b - a)

/-- `Color.hex_to_rgb`: strip leading `#`s (`lstrip('#')`), double each
character of a 3-character string, then parse the slices `[0:2]`, `[2:4]`,
`[4:6]` with `int(_, 16)`.  A Python `ValueError` from any of the three
parses is modelled as `none`. -/
def hex_to_rgb (hex_color : String) : Option (Int × Int × Int) :=
  let h0 := hex_color.data.dropWhile (fun c => c = '#')
  let h := if h0.length = 3 then h0.flatMap (fun c => [c, c]) else h0
  match pyIntHex (pySlice h 0 2), pyIntHex (pySlice h 2 4), pyIntHex (pySlice h 4 6) with
  | some r, some g, some b => some (r, g, b)
  | _, _, _ => none

/-- `Color.fg_hex`. -/
def fg_hex (hex_color : String) : Option String :=
  match hex_to_rgb hex_color with
  | some (r, g, b) => some (fg_rgb r g b)
  | none => none

/-- Python `int()` truncation toward zero of an exact rational. -/
def pyTrunc (q : ℚ) : Int := q.num / q.den

/-- `Color.gradient`.  `step` is modelled as an exact rational where Python
uses a float; the claims proved about `gradient` concern palettes of size 0
and 1, where `step` is exact (for size 1 it is the literal `1`, and the
index `min (int (i/step)) (len(colors)-1)` is `0` regardless).  The source
also computes `next_idx` and `pos` but appends `colors[color_idx] + char`
in both branches of its comparison, which is what this definition emits.
Spaces are emitted unstyled. -/
def gradient (text : String) (colors : List String) : String :=
  if colors = [] then text
  else
    let step : ℚ :=
      if colors.length > 1 then (text.length : ℚ) / ((colors.length : ℚ) - 1) else 1
    String.join (text.data.enum.map (fun ic =>
      if ic.2 = ' ' then String.singleton ic.2
      else
        colors.getD (min (pyTrunc ((ic.1 : ℚ) / step)).toNat (colors.length - 1)) "" ++
          String.singleton ic.2)) ++ RESET

/-- `MessageStyle` dataclass; the `prefix` field is renamed `pfx`
(`prefix` is reserved in Lean). -/
structure MessageStyle where
  pfx : String
  color : String
  style : String
  icon : String
  timestamp : Bool
  indent : Nat
deriving DecidableEq

/-- `MessageType` enumeration. -/
inductive MessageType where
  | info
  | info2
  | pending
  | success
  | success2
  | error
  | warning
  | question
  | debug
  | custom
deriving DecidableEq

/-- `MessageService._STYLES` viewed through `dict.get`: the table has an
entry for every member except `CUSTOM`.  Icon strings are the exact
(double-encoded) sequences of the source file. -/
def builtinStyles : MessageType → Option MessageStyle
  | .info => some ⟨"[+]", WHITE, "", "‚Ñπ", false, 0⟩
  | .info2 => some ⟨"[#]", LIGHT_BLUE, "", "üõà", false, 0⟩
  | .pending => some ⟨"[...]", GRAY, "", "‚åõ", false, 0⟩
  | .success => some ⟨"[‚úì]", LIGHT_GREEN, BOLD, "‚úÖ", false, 0⟩
  | .success2 => some ⟨"[‚úì]", LIGHT_BLUE, "", "‚úÖ", false, 0⟩
  | .error => some ⟨"[-]", LIGHT_RED, BOLD, "‚ùå", false, 0⟩
  | .warning => some ⟨"[!]", LIGHT_YELLOW, BOLD, "‚ö†", false, 0⟩
  | .question => some ⟨"[?]", LIGHT_MAGENTA, "", "‚ùì", false, 0⟩
  | .debug => some ⟨"[DEBUG]", LIGHT_CYAN, "", "üêõ", false, 0⟩
  | .custom => none

/-- `cls._STYLES[MessageType.INFO]`, the fallback style. -/
def styleINFO : MessageStyle :=
  ⟨"[+]", WHITE, "", "‚Ñπ", false, 0⟩

/-- The `message_type` argument of `MessageService.print`:
`Union[MessageType, str]`. -/
inductive MessageKind where
  | builtin (t : MessageType)
  | name (s : String)

/-- `MessageService.register_style`: the registry is modelled as an
association list whose lookup takes the most recent entry, matching
dictionary overwrite semantics. -/
def register_style (reg : List (String × MessageStyle))
    (name pfx color style icon : String) : List (String × MessageStyle) :=
  (name, ⟨pfx, color, style, icon, false, 0⟩) :: reg

/-- The style-resolution step of `MessageService.print`: an enum kind is
looked up in `_STYLES`, a string kind in `_custom_styles`; a failed lookup
falls back to `_STYLES[MessageType.INFO]`.  Total — this step never fails. -/
def resolveStyle (reg : List (String × MessageStyle)) (k : MessageKind) : MessageStyle :=
  let style? :=
    match k with
    | .builtin t => builtinStyles t
    | .name s => List.lookup s reg
  match style? with
  | some st => st
  | none => styleINFO

/-- Lookup of a kind among the built-in styles only (a string kind never
matches: the built-in table is keyed by the enumeration). -/
def builtinLookup : MessageKind → Option MessageStyle
  | .builtin t => builtinStyles t
  | .name _ => none

/-- Lookup of a kind in the custom registry only. -/
def customLookup (reg : List (String × MessageStyle)) : MessageKind → Option MessageStyle
  | .builtin _ => none
  | .name s => List.lookup s reg

/-- Modelled from the spec's words, for comparison with `resolveStyle`:
resolve against built-in styles first, then against the custom registry,
falling back to the INFO style. -/
def resolveStyleSpec (reg : List (String × MessageStyle)) (k : MessageKind) : MessageStyle :=
  ((builtinLookup k).orElse (fun _ => customLookup reg k)).getD styleINFO

/-- `ProgressBar` state.  The wall clock `start_time` is not modelled. -/
structure ProgressBar where
  total : Int
  current : Int
  description : String
  bar_length : Int
  complete_char : String
  incomplete_char : String
  show_percentage : Bool
  show_counter : Bool
deriving DecidableEq

/-- `ProgressBar.__init__`: stores the arguments and sets `current = 0`;
no validation is performed on `total`. -/
def ProgressBar.init (total : Int) (description : String) (bar_length : Int)
    (complete_char incomplete_char : String) (show_percentage show_counter : Bool) :
    ProgressBar :=
  { total := total
    current := 0
    description := description
    bar_length := bar_length
    complete_char := complete_char
    incomplete_char := incomplete_char
    show_percentage := show_percentage
    show_counter := show_counter }

/-- The state change of `ProgressBar.update`: `current = min(value, total)`
when a value is passed, else `current = min(current + increment, total)`
(the call then runs `_render`). -/
def ProgressBar.update (pb : ProgressBar) (value : Option Int) (increment : Int) : ProgressBar :=
  { pb with current :=
      match value with
      | some v => min v pb.total
      | none => min (pb.current + increment) pb.total }

/-- The numeric content of one `_render` frame. -/
structure RenderData where
  progress : ℚ
  filled_length : Int
  bar : String
  percentage : Option ℚ
  counter : Option (Int × Int)
deriving DecidableEq

/-- `ProgressBar._render`, as far as it is deterministic: `none` models the
`ZeroDivisionError` raised by `progress = self.current / self.total` when
`total = 0`; otherwise the frame's numbers and bar string.  The wall-clock
time segment and the one-decimal formatting of the percentage are
presentation-only and are not modelled (the percentage is kept as the exact
`progress * 100`). -/
def ProgressBar.render (pb : ProgressBar) : Option RenderData :=
  if pb.total = 0 then none
  else
    let progress : ℚ := (pb.current : ℚ) / (pb.total : ℚ)
    let filled := pyTrunc ((pb.bar_length : ℚ) * progress)
    some { progress := progress
           filled_length := filled
           bar := strRepeatI pb.complete_char filled ++
             strRepeatI pb.incomplete_char (pb.bar_length - filled)
           percentage := if pb.show_percentage then some (progress * 100) else none
           counter := if pb.show_counter then some (pb.current, pb.total) else none }

/-- Python `str.ljust` (no padding when the string is already wide enough). -/
def pyLjust (s : String) (width : Nat) : String :=
  s ++ strRepeat " " (width - s.length)

/-- Python `str.rjust`. -/
def pyRjust (s : String) (width : Nat) : String :=
  strRepeat " " (width - s.length) ++ s

/-- Python `str.center`; CPython places the extra space of an odd margin on
the left exactly when the total width is odd:
`left = marg / 2 + (marg AND width AND 1)`. -/
def pyCenter (s : String) (width : Nat) : String :=
  let marg := width - s.length
  let left := marg / 2 + (marg &&& width &&& 1)
  strRepeat " " left ++ s ++ strRepeat " " (marg - left)

/-- The alignment dispatch of `TablePrinter.print` (header and data cells):
`center`/`right`/anything-else-is-left, padding computed from the RAW string
length (the source does not strip colors here). -/
def alignCell (align : String) (s : String) (width : Nat) : String :=
  if align = "center" then pyCenter s width
  else if align = "right" then pyRjust s width
  else pyLjust s width

/-- The eleven glyphs of one border style. -/
structure BorderChars where
  top_left : String
  top_right : String
  bottom_left : String
  bottom_right : String
  horizontal : String
  vertical : String
  cross : String
  top_cross : String
  bottom_cross : String
  left_cross : String
  right_cross : String
deriving DecidableEq

/-- `_border_styles["rounded"]` (glyphs exactly as in the file, each three
characters). -/
def roundedBorder : BorderChars :=
  ⟨"‚ï≠", "‚ïÆ", "‚ï∞", "‚ïØ",
   "‚îÄ", "‚îÇ", "‚îº", "‚î¨",
   "‚î¥", "‚îú", "‚î§"⟩

/-- `_border_styles["double"]`. -/
def doubleBorder : BorderChars :=
  ⟨"‚ïî", "‚ïó", "‚ïö", "‚ïù",
   "‚ïê", "‚ïë", "‚ï¨", "‚ï¶",
   "‚ï©", "‚ï†", "‚ï£"⟩

/-- `_border_styles["simple"]`. -/
def simpleBorder : BorderChars :=
  ⟨"‚îå", "‚îê", "‚îî", "‚îò",
   "‚îÄ", "‚îÇ", "‚îº", "‚î¨",
   "‚î¥", "‚îú", "‚î§"⟩

/-- `_border_styles["plain"]`: empty glyphs except a single-space vertical. -/
def plainBorder : BorderChars :=
  ⟨"", "", "", "", "", " ", "", "", "", "", ""⟩

/-- `self._border_styles.get(self.border_style, self._border_styles["simple"])`. -/
def getBorder (name : String) : BorderChars :=
  if name = "rounded" then roundedBorder
  else if name = "double" then doubleBorder
  else if name = "simple" then simpleBorder
  else if name = "plain" then plainBorder
  else simpleBorder

/-- `TablePrinter` state.  Cells are modelled as strings (the source applies
`str(...)` to every header and cell it measures or renders). -/
structure TablePrinter where
  headers : List String
  rows : List (List String)
  column_align : List String
  padding : Nat
  border_style : String
  header_color : String
  zebra_stripes : Bool
  stripe_color : String
deriving DecidableEq

/-- The column-width loop of `TablePrinter.print`:
`max(len(headers[i]), len of every row cell present at i) + padding * 2`.
Lengths are RAW string lengths — the source does not strip colors here. -/
def colWidths (t : TablePrinter) : List Nat :=
  (List.range t.headers.length).map (fun i =>
    (t.rows.foldl
      (fun acc row => if i < row.length then max acc (row.getD i "").length else acc)
      (t.headers.getD i "").length) + t.padding * 2)

/-- One rule line (top/separator/bottom): a left glyph, `horizontal * width`
per column joined by the junction glyph, then a right glyph. -/
def ruleLine (left junction right horiz : String) (widths : List Nat) : String :=
  left ++ String.join ((widths.map (fun w => strRepeat horiz w)).intersperse junction) ++ right

/-- One header cell appended to the accumulated line: indexing
`col_widths[i]` and `self.column_align[i]` raises `IndexError` (`none`) when
out of range. -/
def headerCell (t : TablePrinter) (widths : List Nat) (b : BorderChars)
    (acc : String) (ih : Nat × String) : Option String :=
  match widths.get? ih.1, t.column_align.get? ih.1 with
  | some w, some align =>
    some (acc ++ strRepeat " " t.padding ++ t.header_color ++
      alignCell align ih.2 (w - t.padding * 2) ++ RESET ++ strRepeat " " t.padding ++
      (if b.vertical ≠ "" then b.vertical else ""))
  | _, _ => none

/-- The header line of `TablePrinter.print`. -/
def headerLine (t : TablePrinter) (widths : List Nat) (b : BorderChars) : Option String :=
  t.headers.enum.foldlM (headerCell t widths b)
    (if b.vertical ≠ "" then b.vertical else "")

/-- One data cell appended to the accumulated line: as in the source, the
loop runs over the row's own cells, and `col_widths[i]` /
`self.column_align[i]` raise `IndexError` (`none`) when the row is longer
than the headers. -/
def rowCell (t : TablePrinter) (widths : List Nat) (b : BorderChars) (row_color : String)
    (acc : String) (ic : Nat × String) : Option String :=
  match widths.get? ic.1, t.column_align.get? ic.1 with
  | some w, some align =>
    some (acc ++ strRepeat " " t.padding ++ row_color ++
      alignCell align ic.2 (w - t.padding * 2) ++ RESET ++ strRepeat " " t.padding ++
      (if b.vertical ≠ "" then b.vertical else ""))
  | _, _ => none

/-- One data row of `TablePrinter.print`, with the zebra-stripe color on
odd row indices. -/
def rowLine (t : TablePrinter) (widths : List Nat) (b : BorderChars)
    (row_idx : Nat) (row : List String) : Option String :=
  let row_color := if t.zebra_stripes ∧ row_idx % 2 = 1 then t.stripe_color else ""
  row.enum.foldlM (rowCell t widths b row_color)
    (if b.vertical ≠ "" then b.vertical else "")

/-- The data-row loop of `TablePrinter.print` over the enumerated rows. -/
def renderRows (t : TablePrinter) (widths : List Nat) (b : BorderChars) :
    List (Nat × List String) → Option (List String)
  | [] => some []
  | ir :: rest =>
    match rowLine t widths b ir.1 ir.2, renderRows t widths b rest with
    | some line, some lines => some (line :: lines)
    | _, _ => none

/-- `TablePrinter.print`: the list of printed lines, or `none` when an
`IndexError` is raised (the source would have printed the lines preceding
the failing row before raising; the claims considered do not depend on that
partial output). -/
def TablePrinter.print (t : TablePrinter) : Option (List String) :=
  let widths := colWidths t
  let b := getBorder t.border_style
  let top := if b.top_left ≠ "" then
      [ruleLine b.top_left b.top_cross b.top_right b.horizontal widths] else []
  let sep := if b.left_cross ≠ "" then
      [ruleLine b.left_cross b.cross b.right_cross b.horizontal widths] else []
  let bottom := if b.bottom_left ≠ "" then
      [ruleLine b.bottom_left b.bottom_cross b.bottom_right b.horizontal widths] else []
  match headerLine t widths b, renderRows t widths b t.rows.enum with
  | some hline, some drows => some (top ++ [hline] ++ sep ++ drows ++ bottom)
  | _, _ => none

/-- Modelled from the spec's words, for comparison with `colWidths`:
"Column width = max(color-stripped length of header, color-stripped length
of every cell in that column) + 2×padding". -/
def specColWidthsStripped (t : TablePrinter) : List Nat :=
  (List.range t.headers.length).map (fun i =>
    ((t.rows.filterMap (fun row => row.get? i)).map
        (fun c => (strip_colors c).length)).foldl max
      (strip_colors (t.headers.getD i "")).length + t.padding * 2)

/-- Modelled from the spec's words, for comparison with `alignCell`:
alignment padding computed on the visible (color-stripped) length of the
cell, emitting the cell text itself unmodified. -/
def specAlignStripped (align : String) (s : String) (width : Nat) : String :=
  let vis := (strip_colors s).length
  if align = "center" then
    let marg := width - vis
    let left := marg / 2 + (marg &&& width &&& 1)
    strRepeat " " left ++ s ++ strRepeat " " (marg - left)
  else if align = "right" then strRepeat " " (width - vis) ++ s
  else s ++ strRepeat " " (width - vis)

/-- The box glyphs as they appear (double-encoded) in the source of
`ArtService.box`: each is a three-character string. -/
def boxTL : String := "‚ï≠"

/-- Top-right box corner. -/
def boxTR : String := "‚ïÆ"

/-- Bottom-left box corner. -/
def boxBL : String := "‚ï∞"

/-- Bottom-right box corner. -/
def boxBR : String := "‚ïØ"

/-- Horizontal box rule glyph. -/
def boxH : String := "‚îÄ"

/-- Vertical box rule glyph. -/
def boxV : String := "‚îÇ"

/-- `text.split('\n')`. -/
def splitLines : List Char → List (List Char)
  | [] => [[]]
  | c :: rest =>
    let r := splitLines rest
    if c = '\n' then [] :: r
    else (c :: r.headD []) :: r.tail

/-- `ArtService.box`: the returned multi-line string.  `max_len` is the
maximum visible (color-stripped) length over the lines (the list of lines is
never empty, so folding from `0` agrees with Python's `max`).  In the titled
top border the horizontal-run count `max_len - len(title) + padding * 2` can
be negative in Python, repeating to an empty string, hence `strRepeatI`. -/
def box (text title : String) (padding : Nat) (border_color title_color : String) : String :=
  let lines := (splitLines text.data).map (fun l => (⟨l⟩ : String))
  let max_len := (lines.map (fun l => (strip_colors l).length)).foldl max 0
  let top_border :=
    if title ≠ "" then
      border_color ++ (boxTL ++ boxH ++ " ") ++ title_color ++ title ++
        border_color ++ " " ++
        strRepeatI boxH ((max_len : Int) - (title.length : Int) + (padding : Int) * 2) ++ boxTR
    else
      border_color ++ boxTL ++ strRepeat boxH (max_len + padding * 2 + 2) ++ boxTR
  let content := lines.map (fun line =>
    let clean_len := (strip_colors line).length
    border_color ++ boxV ++ strRepeat " " padding ++ line ++
      strRepeat " " (padding + (max_len - clean_len)) ++ border_color ++ boxV)
  let bottom_border := border_color ++ boxBL ++ strRepeat boxH (max_len + padding * 2 + 2) ++ boxBR
  String.intercalate "\n" ([top_border] ++ content ++ [bottom_border]) ++ RESET

/-! ## Theorems -/

theorem data_append (a b : String) : (a ++ b).data = a.data ++ b.data := rfl

theorem reset_data : RESET.data = resetL := rfl

theorem matchSeq_length : ∀ {cs t : List Char}, matchSeq cs = some t → t.length < cs.length := by
  intro cs
  induction cs with
  | nil => intro t h; simp [matchSeq] at h
  | cons c cs ih =>
    intro t h
    simp only [matchSeq] at h
    by_cases hm : c = 'm'
    · rw [if_pos hm] at h
      cases h
      simp
    · rw [if_neg hm] at h
      by_cases hp : isParamChar c = true
      · rw [if_pos hp] at h
        have := ih h
        simp
        omega
      · simp [hp] at h

theorem stripGo_congr : ∀ (f g : Nat) (s : List Char),
    s.length ≤ f → s.length ≤ g → stripGo f s = stripGo g s := by
  intro f
  induction f with
  | zero =>
    intro g s hf _
    have hs : s = [] := by
      cases s with
      | nil => rfl
      | cons a as => simp at hf
    subst hs
    cases g <;> rfl
  | succ f ih =>
    intro g s hf hg
    cases s with
    | nil => cases g <;> rfl
    | cons a as =>
      cases g with
      | zero => simp at hg
      | succ g =>
        simp only [stripGo]
        by_cases hc : a = '\x1b' ∧ as.head? = some '['
        · rw [if_pos hc, if_pos hc]
          cases hm : matchSeq as.tail with
          | some tail =>
            have h1 := matchSeq_length hm
            have h2 : as.tail.length ≤ as.length := by
              cases as <;> simp
            simp only [List.length_cons] at hf hg
            exact ih g tail (by omega) (by omega)
          | none =>
            simp only [List.length_cons] at hf hg
            rw [ih g as (by omega) (by omega)]
        · rw [if_neg hc, if_neg hc]
          simp only [List.length_cons] at hf hg
          rw [ih g as (by omega) (by omega)]

theorem stripGo_eq_stripList {f : Nat} {s : List Char} (h : s.length ≤ f) :
    stripGo f s = stripList s :=
  stripGo_congr f s.length s h le_rfl

/-- Scan step on a position where no escape token starts. -/
theorem stripList_cons (a : Char) (as : List Char)
    (h : ¬(a = '\x1b' ∧ as.head? = some '[')) :
    stripList (a :: as) = a :: stripList as := by
  show stripGo (as.length + 1) (a :: as) = _
  simp only [stripGo, if_neg h]
  rfl

/-- Scan step on a position where `ESC [` starts. -/
theorem stripList_esc (as : List Char) (h : as.head? = some '[') :
    stripList ('\x1b' :: as) =
      (match matchSeq as.tail with
       | some tail => stripList tail
       | none => '\x1b' :: stripList as) := by
  show stripGo (as.length + 1) ('\x1b' :: as) = _
  simp only [stripGo, eq_self_iff_true, true_and]
  rw [if_pos h]
  cases hm : matchSeq as.tail with
  | some tail =>
    have h1 := matchSeq_length hm
    have h2 : as.tail.length ≤ as.length := by cases as <;> simp
    exact stripGo_eq_stripList (by omega)
  | none =>
    exact congrArg _ (stripGo_eq_stripList le_rfl)

theorem matchSeq_append_some {xs t : List Char} (ys : List Char) (h : matchSeq xs = some t) :
    matchSeq (xs ++ ys) = some (t ++ ys) := by
  induction xs generalizing t with
  | nil => simp [matchSeq] at h
  | cons c cs ih =>
    simp only [List.cons_append, matchSeq] at h ⊢
    by_cases hm : c = 'm'
    · rw [if_pos hm] at h ⊢
      cases h
      rfl
    · rw [if_neg hm] at h ⊢
      by_cases hp : isParamChar c = true
      · rw [if_pos hp] at h ⊢
        exact ih h
      · simp [hp] at h

theorem matchSeq_append_reset : ∀ {xs : List Char}, matchSeq xs = none →
    matchSeq (xs ++ resetL) = none := by
  intro xs
  induction xs with
  | nil => intro _; decide
  | cons c cs ih =>
    intro h
    simp only [List.cons_append, matchSeq] at h ⊢
    by_cases hm : c = 'm'
    · rw [if_pos hm] at h
      simp at h
    · rw [if_neg hm] at h ⊢
      by_cases hp : isParamChar c = true
      · rw [if_pos hp] at h ⊢
        exact ih h
      · rw [if_neg hp]

/-- Appending the reset token never changes what the scan removes: a partial
escape sequence at the end of `s` cannot merge with the following reset
token, because the reset token starts with `ESC`, which is neither a
parameter character nor `m`. -/
theorem stripList_append_reset : (s : List Char) → stripList (s ++ resetL) = stripList s
  | [] => by decide
  | a :: as => by
    by_cases hc : a = '\x1b' ∧ as.head? = some '['
    · obtain ⟨ha, hh⟩ := hc
      subst ha
      have hh2 : (as ++ resetL).head? = some '[' := by
        cases as with
        | nil => simp at hh
        | cons b bs => simpa using hh
      have htail : (as ++ resetL).tail = as.tail ++ resetL := by
        cases as with
        | nil => simp at hh
        | cons b bs => simp
      rw [List.cons_append, stripList_esc _ hh2, stripList_esc _ hh, htail]
      cases hm : matchSeq as.tail with
      | some tail =>
        rw [matchSeq_append_some _ hm]
        exact stripList_append_reset tail
      | none =>
        rw [matchSeq_append_reset hm]
        rw [stripList_append_reset as]
    · have hc2 : ¬(a = '\x1b' ∧ (as ++ resetL).head? = some '[') := by
        rintro ⟨ha, hh⟩
        apply hc
        refine ⟨ha, ?_⟩
        cases as with
        | nil => exact absurd hh (by decide)
        | cons b bs => simpa using hh
      rw [List.cons_append, stripList_cons _ _ hc2, stripList_cons _ _ hc]
      rw [stripList_append_reset as]
termination_by s => s.length
decreasing_by
  all_goals simp
  have h1 := matchSeq_length hm
  have h2 : as.tail.length ≤ as.length := by cases as <;> simp
  omega

theorem matchSeq_params (ps : List Char) (hps : ∀ c ∈ ps, isParamChar c = true) (s : List Char) :
    matchSeq (ps ++ 'm' :: s) = some s := by
  induction ps with
  | nil => simp [matchSeq]
  | cons c cs ih =>
    have hc := hps c (by simp)
    have hcm : c ≠ 'm' := by
      intro h
      subst h
      exact absurd hc (by decide)
    simp only [List.cons_append, matchSeq, if_neg hcm, if_pos hc]
    exact ih (fun x hx => hps x (by simp [hx]))

/-- Removing one complete style token at the head of the scan. -/
theorem stripList_token_prefix (ps : List Char) (hps : ∀ c ∈ ps, isParamChar c = true)
    (s : List Char) :
    stripList ('\x1b' :: '[' :: (ps ++ 'm' :: s)) = stripList s := by
  rw [stripList_esc _ (by rfl)]
  simp only [List.tail_cons, matchSeq_params ps hps s]

theorem isTokenTail_decomp : ∀ {rest : List Char}, isTokenTail rest = true →
    ∃ ps, (∀ c ∈ ps, isParamChar c = true) ∧ rest = ps ++ ['m'] := by
  intro rest
  induction rest with
  | nil => intro h; simp [isTokenTail] at h
  | cons c cs ih =>
    intro h
    cases cs with
    | nil =>
      have hcm : c = 'm' := by simpa [isTokenTail] using h
      exact ⟨[], by simp, by simp [hcm]⟩
    | cons d ds =>
      simp only [isTokenTail, Bool.and_eq_true] at h
      obtain ⟨ps, hps, heq⟩ := ih h.2
      refine ⟨c :: ps, ?_, by simp [heq]⟩
      intro x hx
      rcases List.mem_cons.mp hx with hx | hx
      · subst hx; exact h.1
      · exact hps x hx

theorem isStyleToken_decomp {tok : String} (h : isStyleToken tok = true) :
    ∃ rest, tok.data = '\x1b' :: '[' :: rest ∧ isTokenTail rest = true := by
  unfold isStyleToken at h
  rcases hd : tok.data with _ | ⟨a, _ | ⟨b, rest⟩⟩ <;> rw [hd] at h
  · simp at h
  · simp at h
  · simp only [Bool.and_eq_true, decide_eq_true_eq] at h
    obtain ⟨⟨h1, h2⟩, h3⟩ := h
    subst h1
    subst h2
    exact ⟨rest, rfl, h3⟩

/-- C7 (amended): for every complete style token `tok` and every string `s`,
`strip_colors (tok ++ s ++ RESET) = strip_colors s`; this equals `s` itself
exactly when `s` contains no escape tokens.  The original claim
`strip_colors (styleToken ++ s ++ RESET) = s` for ALL strings `s` fails when
`s` itself contains a token — see the counterexample. -/
theorem strip_token_reset_strips_to_strip (tok s : String) (h : isStyleToken tok = true) :
    strip_colors (tok ++ s ++ RESET) = strip_colors s := by
  obtain ⟨rest, hdata, htail⟩ := isStyleToken_decomp h
  obtain ⟨ps, hps, hrest⟩ := isTokenTail_decomp htail
  unfold strip_colors
  congr 1
  have hd : (tok ++ s ++ RESET).data = '\x1b' :: '[' :: (ps ++ 'm' :: (s.data ++ resetL)) := by
    rw [data_append, data_append, reset_data, hdata, hrest]
    simp
  rw [hd, stripList_token_prefix ps hps, stripList_append_reset]

/-- C7 counterexample: with `s` itself an escape token (`s = "\x1b[31m"`,
`styleToken = RED`), stripping the wrapped string yields `""`, not `s` —
the claim as stated, quantified over all strings, is false. -/
theorem strip_token_reset_counterexample :
    strip_colors (RED ++ "\x1b[31m" ++ RESET) = "" ∧
    strip_colors (RED ++ "\x1b[31m" ++ RESET) ≠ "\x1b[31m" := by decide

/-- Witness for the amended C7 theorem at a concrete token and string. -/
theorem strip_token_reset_witness :
    isStyleToken RED = true ∧
    strip_colors (RED ++ "hello" ++ RESET) = strip_colors "hello" :=
  ⟨by decide, strip_token_reset_strips_to_strip RED "hello" (by decide)⟩

theorem isHexDig_not_space {c : Char} (h : isHexDig c = true) : isPySpace c = false := by
  cases hx : isPySpace c
  · rfl
  · exfalso
    simp only [isPySpace, Bool.or_eq_true, decide_eq_true_eq] at hx
    rcases hx with ((((h1 | h1) | h1) | h1) | h1) | h1 <;> subst h1 <;> exact absurd h (by decide)

theorem isHexDig_ne {c : Char} (h : isHexDig c = true) :
    c ≠ '#' ∧ c ≠ '+' ∧ c ≠ '-' ∧ c ≠ '_' ∧ c ≠ 'x' ∧ c ≠ 'X' := by
  refine ⟨?_, ?_, ?_, ?_, ?_, ?_⟩ <;> (intro e; subst e; exact absurd h (by decide))

theorem dropWhile_eq_self_of_all {p : Char → Bool} {l : List Char}
    (h : ∀ c ∈ l, p c = false) : l.dropWhile p = l := by
  cases l with
  | nil => rfl
  | cons a as => simp [List.dropWhile_cons, h a (by simp)]

theorem stripHexPrefix_eq_self {l : List Char} (hl : ∀ c ∈ l, isHexDig c = true) :
    stripHexPrefix l = l := by
  cases l with
  | nil => rfl
  | cons a as =>
    cases as with
    | nil => rfl
    | cons b bs =>
      have hb := isHexDig_ne (hl b (by simp))
      show (if a = '0' ∧ (b = 'x' ∨ b = 'X') then dropOneUnderscore bs else a :: b :: bs) =
        a :: b :: bs
      rw [if_neg]
      rintro ⟨-, hx | hx⟩
      · exact hb.2.2.2.2.1 hx
      · exact hb.2.2.2.2.2 hx

theorem hexRun_of_hex : ∀ {l : List Char}, l ≠ [] → (∀ c ∈ l, isHexDig c = true) →
    hexRun l = true := by
  intro l
  induction l with
  | nil => intro h _; exact absurd rfl h
  | cons c cs ih =>
    intro _ hl
    cases cs with
    | nil => simpa [hexRun] using hl c (by simp)
    | cons d ds =>
      have hdu : d ≠ '_' := (isHexDig_ne (hl d (by simp))).2.2.2.1
      simp only [hexRun, if_neg hdu, Bool.and_eq_true]
      exact ⟨hl c (by simp), ih (by simp) (fun x hx => hl x (by simp [hx]))⟩

theorem pyIntHex_nil : pyIntHex [] = none := by decide

theorem pyIntHex_hex_isSome : ∀ {l : List Char}, l ≠ [] → (∀ c ∈ l, isHexDig c = true) →
    (pyIntHex l).isSome = true := by
  intro l h0 hl
  have hsp : ∀ c ∈ l, isPySpace c = false := fun c hc => isHexDig_not_space (hl c hc)
  have hd1 : l.dropWhile isPySpace = l := dropWhile_eq_self_of_all hsp
  have hd2 : l.reverse.dropWhile isPySpace = l.reverse :=
    dropWhile_eq_self_of_all (fun c hc => hsp c (List.mem_reverse.mp hc))
  have hrun : hexRun (stripHexPrefix l) = true := by
    rw [stripHexPrefix_eq_self hl]
    exact hexRun_of_hex h0 hl
  cases l with
  | nil => exact absurd rfl h0
  | cons a as =>
    have ha := isHexDig_ne (hl a (by simp))
    simp only [pyIntHex, hd1, hd2, List.reverse_reverse, if_neg ha.2.1, if_neg ha.2.2.1, hrun]
    simp

theorem pySlice_subset (l : List Char) (a b : Nat) : pySlice l a b ⊆ l := by
  intro c hc
  exact List.drop_subset a l (List.take_subset _ _ hc)

theorem pySlice_ne_nil {l : List Char} {a b : Nat} (ha : a < l.length) (hab : a < b) :
    pySlice l a b ≠ [] := by
  unfold pySlice
  intro h
  have := congrArg List.length h
  simp only [List.length_take, List.length_drop, List.length_nil] at this
  omega

theorem pySlice_nil_of_le {l : List Char} {a : Nat} (b : Nat) (ha : l.length ≤ a) :
    pySlice l a b = [] := by
  unfold pySlice
  rw [List.drop_eq_nil_of_le ha]
  exact List.take_nil

theorem length_flatMap_double (l : List Char) :
    (l.flatMap (fun c => [c, c])).length = 2 * l.length := by
  induction l with
  | nil => rfl
  | cons a as ih =>
    simp only [List.flatMap_cons, List.length_append, List.length_cons, List.length_nil, ih]
    omega

theorem mem_flatMap_double_hex {l : List Char} (hl : ∀ c ∈ l, isHexDig c = true) :
    ∀ c ∈ l.flatMap (fun c => [c, c]), isHexDig c = true := by
  intro c hc
  obtain ⟨x, hx, hcx⟩ := List.mem_flatMap.mp hc
  simp only [List.mem_cons, List.not_mem_nil, or_false] at hcx
  rcases hcx with h | h <;> (rw [h]; exact hl x hx)

theorem dropWhile_hash_eq_self {l : List Char} (hl : ∀ c ∈ l, isHexDig c = true) :
    l.dropWhile (fun c => c = '#') = l :=
  dropWhile_eq_self_of_all (fun c hc => by simp [(isHexDig_ne (hl c hc)).1])

/-- On hex-digit-only input the three-slice parse succeeds exactly when the
length is 3 (the string is doubled to 6) or at least 5 (all three slices
`[0:2]`, `[2:4]`, `[4:6]` are nonempty — digits past the sixth are simply
never read). -/
theorem hex_to_rgb_hex_isSome_iff {s : String} (hl : ∀ c ∈ s.data, isHexDig c = true) :
    (hex_to_rgb s).isSome = true ↔ (s.data.length = 3 ∨ 5 ≤ s.data.length) := by
  have hdrop := dropWhile_hash_eq_self hl
  simp only [hex_to_rgb]
  rw [hdrop]
  by_cases h3 : s.data.length = 3
  · rw [if_pos h3]
    have hhex := mem_flatMap_double_hex hl
    have hlen : (s.data.flatMap (fun c => [c, c])).length = 6 := by
      rw [length_flatMap_double, h3]
    obtain ⟨r, hr⟩ := Option.isSome_iff_exists.mp
      (pyIntHex_hex_isSome
        (@pySlice_ne_nil (s.data.flatMap (fun c => [c, c])) 0 2 (by omega) (by omega))
        (fun c hc => hhex c (pySlice_subset _ _ _ hc)))
    obtain ⟨g, hg⟩ := Option.isSome_iff_exists.mp
      (pyIntHex_hex_isSome
        (@pySlice_ne_nil (s.data.flatMap (fun c => [c, c])) 2 4 (by omega) (by omega))
        (fun c hc => hhex c (pySlice_subset _ _ _ hc)))
    obtain ⟨b, hb⟩ := Option.isSome_iff_exists.mp
      (pyIntHex_hex_isSome
        (@pySlice_ne_nil (s.data.flatMap (fun c => [c, c])) 4 6 (by omega) (by omega))
        (fun c hc => hhex c (pySlice_subset _ _ _ hc)))
    rw [hr, hg, hb]
    simp [h3]
  · rw [if_neg h3]
    by_cases h5 : 5 ≤ s.data.length
    · obtain ⟨r, hr⟩ := Option.isSome_iff_exists.mp
        (pyIntHex_hex_isSome (@pySlice_ne_nil s.data 0 2 (by omega) (by omega))
          (fun c hc => hl c (pySlice_subset _ _ _ hc)))
      obtain ⟨g, hg⟩ := Option.isSome_iff_exists.mp
        (pyIntHex_hex_isSome (@pySlice_ne_nil s.data 2 4 (by omega) (by omega))
          (fun c hc => hl c (pySlice_subset _ _ _ hc)))
      obtain ⟨b, hb⟩ := Option.isSome_iff_exists.mp
        (pyIntHex_hex_isSome (@pySlice_ne_nil s.data 4 6 (by omega) (by omega))
          (fun c hc => hl c (pySlice_subset _ _ _ hc)))
      rw [hr, hg, hb]
      simp only [Option.isSome_some, eq_self_iff_true, true_iff]
      exact Or.inr h5
    · have h4 : pyIntHex (pySlice s.data 4 6) = none := by
        rw [pySlice_nil_of_le 6 (by omega)]
        exact pyIntHex_nil
      rw [h4]
      cases pyIntHex (pySlice s.data 0 2) <;> cases pyIntHex (pySlice s.data 2 4) <;>
        (simp only [Option.isSome_none, Bool.false_eq_true, false_iff, not_or]
         exact ⟨h3, by omega⟩)

theorem hex_to_rgb_hash {s : String} (hl : ∀ c ∈ s.data, isHexDig c = true) :
    hex_to_rgb ("#" ++ s) = hex_to_rgb s := by
  have hdrop := dropWhile_hash_eq_self hl
  have h1 : ("#" ++ s).data.dropWhile (fun c => c = '#') = s.data := by
    rw [data_append]
    have hq : ("#" : String).data = ['#'] := rfl
    rw [hq, List.cons_append, List.nil_append, List.dropWhile_cons]
    simp [hdrop]
  simp only [hex_to_rgb]
  rw [h1, hdrop]

theorem hex_to_rgb_double {s : String} (hl : ∀ c ∈ s.data, isHexDig c = true)
    (h3 : s.data.length = 3) :
    hex_to_rgb s = hex_to_rgb ⟨s.data.flatMap (fun c => [c, c])⟩ := by
  have hdrop := dropWhile_hash_eq_self hl
  have hhex := mem_flatMap_double_hex hl
  have hdrop2 := dropWhile_hash_eq_self hhex
  have hlen : (s.data.flatMap (fun c => [c, c])).length = 6 := by
    rw [length_flatMap_double, h3]
  have hd : (⟨s.data.flatMap (fun c => [c, c])⟩ : String).data =
      s.data.flatMap (fun c => [c, c]) := rfl
  simp only [hex_to_rgb, hd]
  rw [hdrop, hdrop2, h3, hlen]
  simp

/-- C5 (amended): `hex_to_rgb`/`fg_hex` never fail on a 3- or 6-hex-digit
input, but the failure condition is not "exactly when not 3 or 6 hex
digits": on hex-digit-only input (no `#`) the parse succeeds exactly when
the length is 3 or at least 5 — a 5-or-more-digit string is accepted with
the digits past the sixth ignored.  (The failure Python raises on the other
lengths is a plain `ValueError` from `int(_, 16)`; the code has no
`InvalidColorFormat` type.) -/
theorem hex_parse_hexdigit_iff (s : String) (hl : ∀ c ∈ s.data, isHexDig c = true) :
    (hex_to_rgb s).isSome = true ↔ (s.data.length = 3 ∨ 5 ≤ s.data.length) :=
  hex_to_rgb_hex_isSome_iff hl

/-- C5 counterexample: `"abcde"` is five hex digits — neither 3 nor 6 — yet
`hex_to_rgb` succeeds, returning the parse of the first six characters of
the slice pattern, so the claimed "exactly 3 or 6" failure condition is
false. -/
theorem hex_parse_counterexample :
    hex_to_rgb "abcde" = some (171, 205, 14) ∧
    ¬("abcde".data.length = 3 ∨ "abcde".data.length = 6) := by decide

/-- Witness for the amended C5 theorem at a concrete input. -/
theorem hex_parse_witness :
    (∀ c ∈ "ff00aa".data, isHexDig c = true) ∧
    ((hex_to_rgb "ff00aa").isSome = true ↔
      ("ff00aa".data.length = 3 ∨ 5 ≤ "ff00aa".data.length)) :=
  ⟨by decide, hex_parse_hexdigit_iff "ff00aa" (by decide)⟩

/-- C6: valid hex inputs are accepted with or without the leading `#`; the
3-digit form expands by doubling each hex digit (`"F06"` parses as
`FF0066`, i.e. `(255, 0, 102)`); `fg_hex "#FF6B6B"` is exactly the token
`ESC[38;2;255;107;107m`, and `strip_colors` maps that token to `""`. -/
theorem hex_accept_expand_scenario :
    (∀ s : String, (∀ c ∈ s.data, isHexDig c = true) →
      (s.data.length = 3 ∨ s.data.length = 6) →
      hex_to_rgb ("#" ++ s) = hex_to_rgb s ∧ (hex_to_rgb s).isSome = true) ∧
    (∀ s : String, (∀ c ∈ s.data, isHexDig c = true) → s.data.length = 3 →
      hex_to_rgb s = hex_to_rgb ⟨s.data.flatMap (fun c => [c, c])⟩) ∧
    hex_to_rgb "F06" = some (255, 0, 102) ∧
    fg_hex "#FF6B6B" = some "\x1b[38;2;255;107;107m" ∧
    strip_colors "\x1b[38;2;255;107;107m" = "" := by
  refine ⟨?_, ?_, by decide, by decide, by decide⟩
  · intro s hl hlen
    refine ⟨hex_to_rgb_hash hl, (hex_to_rgb_hex_isSome_iff hl).mpr ?_⟩
    rcases hlen with h | h
    · exact Or.inl h
    · exact Or.inr (by omega)
  · intro s hl h3
    exact hex_to_rgb_double hl h3

/-- Witness for the C6 theorem at the spec's own scenario input. -/
theorem hex_accept_witness :
    (∀ c ∈ "FF6B6B".data, isHexDig c = true) ∧
    ("FF6B6B".data.length = 3 ∨ "FF6B6B".data.length = 6) ∧
    hex_to_rgb ("#" ++ "FF6B6B") = hex_to_rgb "FF6B6B" ∧
    (hex_to_rgb "FF6B6B").isSome = true := by
  refine ⟨by decide, by decide, ?_, ?_⟩
  · exact (hex_accept_expand_scenario.1 "FF6B6B" (by decide) (by decide)).1
  · exact (hex_accept_expand_scenario.1 "FF6B6B" (by decide) (by decide)).2

theorem enum_map_snd_fun {α β : Type} (l : List α) (g : α → β) :
    l.enum.map (fun ic => g ic.2) = l.map g := by
  have h1 : (fun ic : Nat × α => g ic.2) = g ∘ Prod.snd := rfl
  rw [h1, ← List.map_map, List.enum_map_snd]

theorem gradient_single_map (l : List Char) (c : String) (q : ℚ) :
    (l.enum.map (fun ic =>
      if ic.2 = ' ' then String.singleton ic.2
      else [c].getD (min (pyTrunc ((ic.1 : ℚ) / q)).toNat (([c] : List String).length - 1)) "" ++
        String.singleton ic.2)) =
    l.map (fun ch => if ch = ' ' then String.singleton ch else c ++ String.singleton ch) := by
  rw [← enum_map_snd_fun l
    (fun ch => if ch = ' ' then String.singleton ch else c ++ String.singleton ch)]
  apply List.map_congr_left
  intro ic _
  by_cases hsp : ic.2 = ' '
  · rw [if_pos hsp, if_pos hsp]
  · rw [if_neg hsp, if_neg hsp]
    simp

/-- C8: `gradient` with an empty palette returns the text unchanged with no
reset appended; with a one-token palette it prefixes every non-space
character with that single token (spaces pass through unstyled) and appends
one trailing reset. -/
theorem gradient_empty_and_singleton :
    (∀ t : String, gradient t [] = t) ∧
    (∀ (t : String) (c : String),
      gradient t [c] =
        String.join (t.data.map (fun ch =>
          if ch = ' ' then String.singleton ch else c ++ String.singleton ch)) ++ RESET) := by
  constructor
  · intro t
    simp [gradient]
  · intro t c
    have hne : ([c] : List String) ≠ [] := by simp
    simp only [gradient, if_neg hne]
    rw [gradient_single_map]

/-- C9: the style resolution of `MessageService.print` is total, agrees with
the spec's sequential "built-in styles first, then custom registry, INFO on
failure" lookup, and any string kind absent from the registry (such as
`"doesnotexist"`) falls back to the INFO style, whose prefix is `"[+]"`. -/
theorem resolve_builtin_then_custom_info_fallback :
    (∀ (reg : List (String × MessageStyle)) (k : MessageKind),
      resolveStyle reg k = resolveStyleSpec reg k) ∧
    (∀ (reg : List (String × MessageStyle)) (s : String),
      List.lookup s reg = none → resolveStyle reg (.name s) = styleINFO) ∧
    styleINFO.pfx = "[+]" := by
  refine ⟨?_, ?_, rfl⟩
  · intro reg k
    cases k with
    | builtin t => cases t <;> rfl
    | name s =>
      cases h : List.lookup s reg <;>
        simp [resolveStyle, resolveStyleSpec, builtinLookup, customLookup, h, Option.orElse]
  · intro reg s h
    simp [resolveStyle, h]

/-- Witness for the C9 theorem at the spec's scenario: the unknown kind
`"doesnotexist"` (here with an empty registry) resolves to the INFO style. -/
theorem resolve_fallback_witness :
    List.lookup "doesnotexist" ([] : List (String × MessageStyle)) = none ∧
    resolveStyle [] (.name "doesnotexist") = styleINFO :=
  ⟨rfl, resolve_builtin_then_custom_info_fallback.2.1 [] "doesnotexist" rfl⟩

/-- C3 (code bug): the claim — with §7 of the spec — requires construction
to reject `total < 1` with an `InvalidArgument` failure; the code performs
no validation at all (the repository has no `InvalidArgument` type), and
with `total = 0` the very first render (`__enter__` runs `update(0)`, which
calls `_render`) raises `ZeroDivisionError` at `current / total`.
Conjuncts: construction with `total = 0` succeeds; the subsequent render
fails; and — the true half of the claim — the ratio computation never
divides by zero once `total ≥ 1`. -/
theorem progress_zero_total_divzero :
    (ProgressBar.init 0 "" 50 "#" "-" true true).total = 0 ∧
    ((ProgressBar.init 0 "" 50 "#" "-" true true).update (some 0) 1).render = none ∧
    (∀ pb : ProgressBar, 1 ≤ pb.total → (pb.render).isSome = true) := by
  refine ⟨rfl, by decide, ?_⟩
  intro pb h
  unfold ProgressBar.render
  rw [if_neg (by omega)]
  rfl

/-- Witness for the total-≥-1 half of the C3 theorem. -/
theorem progress_render_witness :
    1 ≤ (ProgressBar.init 4 "" 50 "#" "-" true true).total ∧
    ((ProgressBar.init 4 "" 50 "#" "-" true true).render).isSome = true :=
  ⟨by decide, progress_zero_total_divzero.2.2 _ (by decide)⟩

/-- C4 (amended): `update` clamps `current` to `total` from above, and any
sequence of increment-only updates with nonnegative increments keeps
`current` in `[0, total]` and non-decreasing; but an update passing an
explicit `value` sets `current = min(value, total)`, which can DECREASE
`current` and can drive it below `0` — see the counterexample. -/
theorem progress_update_clamp :
    (∀ (pb : ProgressBar) (v : Option Int) (inc : Int),
      (pb.update v inc).current ≤ pb.total) ∧
    (∀ (pb : ProgressBar) (incs : List Int), 0 ≤ pb.current → pb.current ≤ pb.total →
      (∀ i ∈ incs, 0 ≤ i) →
      0 ≤ (incs.foldl (fun b i => b.update none i) pb).current ∧
      (incs.foldl (fun b i => b.update none i) pb).current ≤ pb.total ∧
      pb.current ≤ (incs.foldl (fun b i => b.update none i) pb).current) := by
  constructor
  · intro pb v inc
    cases v with
    | some x => exact min_le_right x pb.total
    | none => exact min_le_right (pb.current + inc) pb.total
  · intro pb incs
    induction incs generalizing pb with
    | nil => intro h0 ht _; exact ⟨h0, ht, le_rfl⟩
    | cons i is ih =>
      intro h0 ht hpos
      have hi : 0 ≤ i := hpos i (by simp)
      have hstep0 : 0 ≤ (pb.update none i).current := by
        show 0 ≤ min (pb.current + i) pb.total
        omega
      have hstept : (pb.update none i).current ≤ (pb.update none i).total := by
        show min (pb.current + i) pb.total ≤ pb.total
        omega
      have hstepmono : pb.current ≤ (pb.update none i).current := by
        show pb.current ≤ min (pb.current + i) pb.total
        omega
      have htot : (pb.update none i).total = pb.total := rfl
      obtain ⟨ha, hb, hc⟩ :=
        ih (pb.update none i) hstep0 hstept (fun x hx => hpos x (by simp [hx]))
      rw [htot] at hb
      simp only [List.foldl_cons]
      exact ⟨ha, hb, le_trans hstepmono hc⟩

/-- C4 counterexample: with `total = 10`, `update(value=5)` then
`update(value=2)` decreases `current` from 5 to 2, and a further
`update(value=-1)` drives it to −1, outside `[0, total]`. -/
theorem progress_update_counterexample :
    (((ProgressBar.init 10 "" 50 "#" "-" true true).update (some 5) 1).update
        (some 2) 1).current <
      ((ProgressBar.init 10 "" 50 "#" "-" true true).update (some 5) 1).current ∧
    ((((ProgressBar.init 10 "" 50 "#" "-" true true).update (some 5) 1).update
        (some 2) 1).update (some (-1)) 1).current < 0 := by decide

/-- Witness for the C4 theorem: four unit increments on `total = 4`. -/
theorem progress_update_witness :
    0 ≤ (ProgressBar.init 4 "" 50 "#" "-" true true).current ∧
    (ProgressBar.init 4 "" 50 "#" "-" true true).current ≤
      (ProgressBar.init 4 "" 50 "#" "-" true true).total ∧
    (∀ i ∈ ([1, 1, 1, 1] : List Int), 0 ≤ i) ∧
    (0 ≤ (([1, 1, 1, 1] : List Int).foldl (fun b i => b.update none i)
        (ProgressBar.init 4 "" 50 "#" "-" true true)).current ∧
      (([1, 1, 1, 1] : List Int).foldl (fun b i => b.update none i)
        (ProgressBar.init 4 "" 50 "#" "-" true true)).current ≤
        (ProgressBar.init 4 "" 50 "#" "-" true true).total ∧
      (ProgressBar.init 4 "" 50 "#" "-" true true).current ≤
        (([1, 1, 1, 1] : List Int).foldl (fun b i => b.update none i)
          (ProgressBar.init 4 "" 50 "#" "-" true true)).current) := by
  refine ⟨by decide, by decide, by decide, ?_⟩
  exact progress_update_clamp.2 (ProgressBar.init 4 "" 50 "#" "-" true true)
    [1, 1, 1, 1] (by decide) (by decide) (by decide)

theorem fst_lt_of_mem_enum {α : Type} {l : List α} {ix : Nat × α} (h : ix ∈ l.enum) :
    ix.1 < l.length := by
  have hg := List.mem_enum_iff_getElem?.mp h
  by_contra hle
  rw [List.getElem?_eq_none (by omega)] at hg
  cases hg

theorem snd_mem_of_mem_enum {α : Type} {l : List α} {ix : Nat × α} (h : ix ∈ l.enum) :
    ix.2 ∈ l := by
  have hg := List.mem_enum_iff_getElem?.mp h
  rw [← List.get?_eq_getElem?] at hg
  exact List.get?_mem hg

theorem get?_some_of_lt {α : Type} (l : List α) (i : Nat) (h : i < l.length) :
    ∃ x, l.get? i = some x := by
  have hne : l.get? i ≠ none := by
    rw [ne_eq, List.get?_eq_none]
    omega
  exact Option.ne_none_iff_exists'.mp hne

theorem foldlM_option_isSome {α β : Type} (f : β → α → Option β) :
    ∀ (l : List α) (b : β), (∀ b' a, a ∈ l → (f b' a).isSome = true) →
      (l.foldlM f b).isSome = true := by
  intro l
  induction l with
  | nil => intro b _; rfl
  | cons x xs ih =>
    intro b h
    rw [List.foldlM_cons]
    obtain ⟨b', hb'⟩ := Option.isSome_iff_exists.mp (h b x (by simp))
    rw [hb']
    show (xs.foldlM f b').isSome = true
    exact ih b' (fun b'' a ha => h b'' a (by simp [ha]))

theorem colWidths_length (t : TablePrinter) : (colWidths t).length = t.headers.length := by
  simp [colWidths]

theorem headerCell_isSome (t : TablePrinter) (b : BorderChars)
    (ha : t.column_align.length = t.headers.length)
    (acc : String) (ih : Nat × String) (hlt : ih.1 < t.headers.length) :
    (headerCell t (colWidths t) b acc ih).isSome = true := by
  obtain ⟨w, hw⟩ := get?_some_of_lt (colWidths t) ih.1 (by rw [colWidths_length]; omega)
  obtain ⟨al, hal⟩ := get?_some_of_lt t.column_align ih.1 (by omega)
  unfold headerCell
  rw [hw, hal]
  rfl

theorem headerLine_isSome (t : TablePrinter) (b : BorderChars)
    (ha : t.column_align.length = t.headers.length) :
    (headerLine t (colWidths t) b).isSome = true := by
  unfold headerLine
  apply foldlM_option_isSome
  intro acc ih hmem
  exact headerCell_isSome t b ha acc ih (fst_lt_of_mem_enum hmem)

theorem rowLine_isSome (t : TablePrinter) (b : BorderChars)
    (ha : t.column_align.length = t.headers.length)
    (idx : Nat) (row : List String) (hlen : row.length ≤ t.headers.length) :
    (rowLine t (colWidths t) b idx row).isSome = true := by
  simp only [rowLine]
  apply foldlM_option_isSome
  intro acc ic hmem
  have hlt : ic.1 < t.headers.length := lt_of_lt_of_le (fst_lt_of_mem_enum hmem) hlen
  obtain ⟨w, hw⟩ := get?_some_of_lt (colWidths t) ic.1 (by rw [colWidths_length]; omega)
  obtain ⟨al, hal⟩ := get?_some_of_lt t.column_align ic.1 (by omega)
  unfold rowCell
  rw [hw, hal]
  rfl

theorem renderRows_isSome (t : TablePrinter) (b : BorderChars) :
    ∀ l : List (Nat × List String),
      (∀ ir ∈ l, (rowLine t (colWidths t) b ir.1 ir.2).isSome = true) →
      (renderRows t (colWidths t) b l).isSome = true := by
  intro l
  induction l with
  | nil => intro _; rfl
  | cons ir rest ih =>
    intro h
    obtain ⟨line, hline⟩ := Option.isSome_iff_exists.mp (h ir (by simp))
    obtain ⟨lines, hlines⟩ := Option.isSome_iff_exists.mp (ih (fun x hx => h x (by simp [hx])))
    unfold renderRows
    rw [hline, hlines]
    rfl

/-- When the alignment list covers the headers and no row is longer than the
headers, no index is ever out of range and the render produces its lines. -/
theorem table_print_isSome (t : TablePrinter)
    (ha : t.column_align.length = t.headers.length)
    (hr : ∀ row ∈ t.rows, row.length ≤ t.headers.length) :
    (t.print).isSome = true := by
  obtain ⟨hl, hhl⟩ := Option.isSome_iff_exists.mp
    (headerLine_isSome t (getBorder t.border_style) ha)
  obtain ⟨ls, hls⟩ := Option.isSome_iff_exists.mp
    (renderRows_isSome t (getBorder t.border_style) t.rows.enum
      (fun ir hmem => rowLine_isSome t _ ha ir.1 ir.2 (hr ir.2 (snd_mem_of_mem_enum hmem))))
  simp only [TablePrinter.print]
  rw [hhl, hls]
  rfl

/-- C2 (amended): when the alignment list covers the headers and every row
is at most as long as the headers, rendering succeeds; but a row SHORTER
than the headers is NOT padded with empty cells — it renders with exactly
one cell segment per cell of the row (the concrete conjunct shows the
one-cell row between two-column rules, with only two vertical glyphs) — and
a row LONGER than the headers makes rendering fail with an `IndexError`
(see the counterexample). -/
theorem table_rows_render_amended :
    (∀ t : TablePrinter,
      t.column_align.length = t.headers.length →
      (∀ row ∈ t.rows, row.length ≤ t.headers.length) →
      (t.print).isSome = true) ∧
    TablePrinter.print
        { headers := ["A", "B"], rows := [["x"]], column_align := ["left", "left"],
          padding := 1, border_style := "simple", header_color := CYAN ++ BOLD,
          zebra_stripes := false, stripe_color := DIM } =
      some [simpleBorder.top_left ++ strRepeat simpleBorder.horizontal 3 ++
              simpleBorder.top_cross ++ strRepeat simpleBorder.horizontal 3 ++
              simpleBorder.top_right,
            simpleBorder.vertical ++ " " ++ CYAN ++ BOLD ++ "A" ++ RESET ++ " " ++
              simpleBorder.vertical ++ " " ++ CYAN ++ BOLD ++ "B" ++ RESET ++ " " ++
              simpleBorder.vertical,
            simpleBorder.left_cross ++ strRepeat simpleBorder.horizontal 3 ++
              simpleBorder.cross ++ strRepeat simpleBorder.horizontal 3 ++
              simpleBorder.right_cross,
            simpleBorder.vertical ++ " " ++ "x" ++ RESET ++ " " ++ simpleBorder.vertical,
            simpleBorder.bottom_left ++ strRepeat simpleBorder.horizontal 3 ++
              simpleBorder.bottom_cross ++ strRepeat simpleBorder.horizontal 3 ++
              simpleBorder.bottom_right] :=
  ⟨fun t ha hr => table_print_isSome t ha hr, by decide⟩

/-- C2 counterexample: a row longer than the headers does NOT have its extra
cells ignored — indexing `col_widths[1]` raises `IndexError` and rendering
fails, refuting "rendering never fails". -/
theorem table_long_row_counterexample :
    TablePrinter.print
      { headers := ["A"], rows := [["x", "y"]], column_align := ["left"], padding := 1,
        border_style := "simple", header_color := CYAN ++ BOLD,
        zebra_stripes := false, stripe_color := DIM } = none := by decide

/-- Witness for the C2 theorem at the concrete short-row table. -/
theorem table_rows_render_witness :
    ({ headers := ["A", "B"], rows := [["x"]], column_align := ["left", "left"],
        padding := 1, border_style := "simple", header_color := CYAN ++ BOLD,
        zebra_stripes := false, stripe_color := DIM } :
      TablePrinter).column_align.length =
      ({ headers := ["A", "B"], rows := [["x"]], column_align := ["left", "left"],
          padding := 1, border_style := "simple", header_color := CYAN ++ BOLD,
          zebra_stripes := false, stripe_color := DIM } : TablePrinter).headers.length ∧
    (∀ row ∈ ([["x"]] : List (List String)), row.length ≤ (["A", "B"] : List String).length) ∧
    (TablePrinter.print
      { headers := ["A", "B"], rows := [["x"]], column_align := ["left", "left"],
        padding := 1, border_style := "simple", header_color := CYAN ++ BOLD,
        zebra_stripes := false, stripe_color := DIM }).isSome = true :=
  ⟨by decide, by decide, table_rows_render_amended.1 _ (by decide) (by decide)⟩

theorem getD_mem {l : List String} {i : Nat} (h : i < l.length) : l.getD i "" ∈ l := by
  obtain ⟨v, hv⟩ := get?_some_of_lt l i h
  rw [List.getD_eq_getD_get?, hv]
  exact List.get?_mem hv

theorem fold_width_eq_filterMap (rows : List (List String)) (i : Nat) :
    ∀ base : Nat,
      rows.foldl
        (fun acc row => if i < row.length then max acc (row.getD i "").length else acc) base =
      ((rows.filterMap (fun row => row.get? i)).map (fun c => c.length)).foldl max base := by
  induction rows with
  | nil => intro base; rfl
  | cons row rest ih =>
    intro base
    by_cases h : i < row.length
    · obtain ⟨v, hv⟩ := get?_some_of_lt row i h
      have hgetD : row.getD i "" = v := by
        rw [List.getD_eq_getD_get?, hv]
        rfl
      rw [List.foldl_cons, if_pos h, List.filterMap_cons, hv, List.map_cons, List.foldl_cons,
        hgetD]
      exact ih _
    · have hv : row.get? i = none := by
        rw [List.get?_eq_none]
        omega
      rw [List.foldl_cons, if_neg h, List.filterMap_cons, hv]
      exact ih base

/-- On escape-free headers and cells the code's raw-length column widths
agree with the spec's stripped-length widths. -/
theorem colWidths_eq_spec_of_clean (t : TablePrinter)
    (hh : ∀ h ∈ t.headers, strip_colors h = h)
    (hc : ∀ row ∈ t.rows, ∀ c ∈ row, strip_colors c = c) :
    colWidths t = specColWidthsStripped t := by
  unfold colWidths specColWidthsStripped
  apply List.map_congr_left
  intro i hi
  have hilt : i < t.headers.length := List.mem_range.mp hi
  have hbase : (strip_colors (t.headers.getD i "")).length = (t.headers.getD i "").length := by
    rw [hh _ (getD_mem hilt)]
  have hmap : (t.rows.filterMap (fun row => row.get? i)).map
        (fun c => (strip_colors c).length) =
      (t.rows.filterMap (fun row => row.get? i)).map (fun c => c.length) := by
    apply List.map_congr_left
    intro c hcmem
    obtain ⟨row, hrow, hget⟩ := List.mem_filterMap.mp hcmem
    rw [hc row hrow c (List.get?_mem hget)]
  rw [fold_width_eq_filterMap, hmap, hbase]

/-- On an escape-free cell the code's raw-length alignment agrees with the
spec's visible-length alignment. -/
theorem alignCell_eq_spec_of_clean (align s : String) (w : Nat) (h : strip_colors s = s) :
    alignCell align s w = specAlignStripped align s w := by
  unfold alignCell specAlignStripped pyLjust pyRjust pyCenter
  rw [h]

/-- C1 (amended): each column's width is the maximum over the RAW
(unstripped) length of the header and the raw length of every cell present
in that column, plus 2×padding, and alignment pads by raw length.  This
agrees with the claimed color-stripped computation exactly for escape-free
headers and cells; for pre-colored cells the code measures the escape codes
too, so such cells do NOT align by visible length (see the counterexample). -/
theorem table_widths_alignment_raw :
    (∀ t : TablePrinter,
      (∀ h ∈ t.headers, strip_colors h = h) →
      (∀ row ∈ t.rows, ∀ c ∈ row, strip_colors c = c) →
      colWidths t = specColWidthsStripped t) ∧
    (∀ (align s : String) (w : Nat), strip_colors s = s →
      alignCell align s w = specAlignStripped align s w) :=
  ⟨colWidths_eq_spec_of_clean, alignCell_eq_spec_of_clean⟩

/-- C1 counterexample: one pre-colored cell `RED ++ "X" ++ RESET` (raw
length 10, visible length 1) in a one-column table with padding 1: the code
computes width 12 where the claim's stripped computation gives 3, and the
code's left alignment to interior width 3 adds no padding (raw length 10 ≥
3) where the visible-length alignment pads two spaces. -/
theorem table_widths_counterexample :
    colWidths
        { headers := ["H"], rows := [[RED ++ "X" ++ RESET]], column_align := ["left"],
          padding := 1, border_style := "simple", header_color := CYAN ++ BOLD,
          zebra_stripes := false, stripe_color := DIM } = [12] ∧
    specColWidthsStripped
        { headers := ["H"], rows := [[RED ++ "X" ++ RESET]], column_align := ["left"],
          padding := 1, border_style := "simple", header_color := CYAN ++ BOLD,
          zebra_stripes := false, stripe_color := DIM } = [3] ∧
    alignCell "left" (RED ++ "X" ++ RESET) 3 ≠
      specAlignStripped "left" (RED ++ "X" ++ RESET) 3 := by decide

/-- Witness for the C1 theorem at the spec's own scenario table. -/
theorem table_widths_witness :
    (∀ h ∈ (["ID", "Name"] : List String), strip_colors h = h) ∧
    (∀ row ∈ ([["1", "Alice"]] : List (List String)), ∀ c ∈ row, strip_colors c = c) ∧
    colWidths
        { headers := ["ID", "Name"], rows := [["1", "Alice"]],
          column_align := ["left", "left"], padding := 1, border_style := "simple",
          header_color := CYAN ++ BOLD, zebra_stripes := false, stripe_color := DIM } =
      specColWidthsStripped
        { headers := ["ID", "Name"], rows := [["1", "Alice"]],
          column_align := ["left", "left"], padding := 1, border_style := "simple",
          header_color := CYAN ++ BOLD, zebra_stripes := false, stripe_color := DIM } ∧
    alignCell "left" "ab" 5 = specAlignStripped "left" "ab" 5 := by
  refine ⟨by decide, by decide, ?_, ?_⟩
  · exact table_widths_alignment_raw.1 _ (by decide) (by decide)
  · exact table_widths_alignment_raw.2 "left" "ab" 5 (by decide)

/-- C10 (code bug): at `box("abc", title="", padding=1)` the horizontal run
count is `max_len + 2·padding + 2 = 7` as the claim says, but the borders'
visible length (corner + run + corner = 27, the file's box glyphs being
three characters each) differs from the content line's visible length
(glyph + padding + text + padding + glyph = 11): the right border column
does not align with the corners, contradicting the claim — and the evident
intent of drawing a box — on every input. -/
theorem box_misaligned_eval :
    (splitLines (box "abc" "" 1 CYAN (CYAN ++ BOLD)).data).map
      (fun l => (stripList l).length) = [27, 11, 27] := by decide

end QoLib
